import Mathlib

/-!
Verification of the completion-tracking coordinator of the scheduler
benchmarking harness (`dev/airflow_perf/scheduler_dag_execution_timing.py`).

The Python state is embedded shallowly:

* Python `dict`s become association lists whose keys are kept without
  duplicates by construction (`aGet` / `aSet` / `aPop` mirror `d.get`,
  `d[k] = v` and `d.pop(k)`; `aSet` updates in place, appending new keys at
  the end, exactly like insertion-ordered `dict`s).
* The persistence layer (`DagRun.find`, `run.get_task_instances()`) is a
  table of dag-run rows; every scan re-reads the then-current row.
* Python `int` counters become `Int` (they may go below zero).
* The one fallible operation, `DagRun.find(...)[0]` on an empty result,
  is an `IndexError`; `change_state` therefore returns `Except`.
* `self.job_runner.num_runs = 1` (the stop instruction for the host
  scheduling loop) is reported as the `Bool` component of the result of
  `change_state`: `true` exactly when this call performed the assignment.
-/

/-- State of a single task instance, as compared against
`TaskInstanceState.SUCCESS` in the source. -/
inductive TIState where
  | success
  | running
  | failed
  | queued
deriving DecidableEq, Repr

/-- A task-instance row of the persistence layer. -/
structure TaskInstance where
  task_id : String
  state : TIState
deriving DecidableEq, Repr

/-- A dag-run row of the persistence layer: its identifying key
`(dag_id, logical_date)` together with its task instances. -/
structure DagRunRow where
  dag_id : String
  logical_date : Nat
  task_instances : List TaskInstance
deriving DecidableEq, Repr

/-- A `DagRun` ORM object as held by the tracker's cache: a non-owning
reference to a row, identified by `(dag_id, logical_date)`.  Task-instance
states are always re-read from the persistence layer, never snapshotted. -/
structure DagRun where
  dag_id : String
  logical_date : Nat
deriving DecidableEq, Repr

/-- The persistence layer visible to the tracker: the dag-run table. -/
structure Db where
  rows : List DagRunRow
deriving DecidableEq, Repr

/-- `airflow.models.DagRun.find(dag_id=..., logical_date=...)`: all run rows
matching the key, as ORM references. -/
def DagRun_find (db : Db) (dag_id : String) (logical_date : Nat) : List DagRun :=
  (db.rows.filter fun r => r.dag_id == dag_id && r.logical_date == logical_date).map
    fun r => { dag_id := r.dag_id, logical_date := r.logical_date }

/-- `run.get_task_instances()`: a live query of the run row's task
instances keyed by `(dag_id, logical_date)`; empty when the row is gone. -/
def get_task_instances (db : Db) (run : DagRun) : List TaskInstance :=
  match db.rows.filter fun r =>
      r.dag_id == run.dag_id && r.logical_date == run.logical_date with
  | [] => []
  | r :: _ => r.task_instances

/-- `all(t.state == TaskInstanceState.SUCCESS for t in run.get_task_instances())`. -/
def allSuccess (db : Db) (run : DagRun) : Bool :=
  (get_task_instances db run).all fun t => t.state == TIState.success

/-- `d.get(k)` on an association list (first matching key). -/
def aGet {α β : Type} [DecidableEq α] : List (α × β) → α → Option β
  | [], _ => none
  | (k, v) :: l, k0 => if k = k0 then some v else aGet l k0

/-- `d[k] = v` on an association list: update in place when the key is
present, append at the end otherwise (insertion-ordered `dict`). -/
def aSet {α β : Type} [DecidableEq α] : List (α × β) → α → β → List (α × β)
  | [], k0, v0 => [(k0, v0)]
  | (k, v) :: l, k0, v0 => if k = k0 then (k, v0) :: l else (k, v) :: aSet l k0 v0

/-- `d.pop(k)` on an association list (the code only pops present keys). -/
def aPop {α β : Type} [DecidableEq α] : List (α × β) → α → List (α × β)
  | [], _ => []
  | (k, v) :: l, k0 => if k = k0 then l else (k, v) :: aPop l k0

/-- Keys of an association list are pairwise distinct (always true of the
lists that embed Python `dict`s). -/
def keysNodup {α β : Type} (l : List (α × β)) : Prop :=
  (l.map Prod.fst).Nodup

instance {α β : Type} [DecidableEq α] (l : List (α × β)) : Decidable (keysNodup l) :=
  inferInstanceAs (Decidable (l.map Prod.fst).Nodup)

/-- Per-dag state in `dags_to_watch`: the `Namespace(waiting_for=...,
runs={...})` built by `ShortCircuitExecutorMixin.reset`. -/
structure WatchEntry where
  waiting_for : Int
  runs : List (Nat × DagRun)
deriving DecidableEq, Repr

/-- State of the `ShortCircuitExecutorMixin`: the configured target
`num_runs_per_dag` (fixed at construction) and `dags_to_watch`. -/
structure SchedState where
  num_runs_per_dag : Int
  dags_to_watch : List (String × WatchEntry)
deriving DecidableEq, Repr

/-- `ShortCircuitExecutorMixin.reset(dag_ids_to_watch)`: rebuild
`dags_to_watch` with one entry per dag id, each with
`waiting_for = num_runs_per_dag` and an empty run cache.  (`dedup` renders
the Python `dict` comprehension's key set.) -/
def ShortCircuit_reset (s : SchedState) (dag_ids_to_watch : List String) : SchedState :=
  { s with
    dags_to_watch :=
      dag_ids_to_watch.dedup.map fun dag_id =>
        (dag_id, { waiting_for := s.num_runs_per_dag, runs := [] }) }

/-- `ShortCircuitExecutorMixin.__init__(dag_ids_to_watch, num_runs)`:
store `num_runs_per_dag` and call `reset`. -/
def ShortCircuit_init (dag_ids_to_watch : List String) (num_runs : Int) : SchedState :=
  ShortCircuit_reset { num_runs_per_dag := num_runs, dags_to_watch := [] } dag_ids_to_watch

/-- The Python exceptions the embedded code can raise. -/
inductive PyErr where
  | indexError
deriving DecidableEq, Repr

/-- The `(dag_id, task_id, logical_date, try_number)` tuple unpacked from
the executor key in `change_state`. -/
structure Key where
  dag_id : String
  task_id : String
  logical_date : Nat
  try_number : Nat
deriving DecidableEq, Repr

/-- The tail of the run-complete branch of `change_state`: pop the run from
the cache, decrement `waiting_for`, pop the dag when the counter hits zero,
and issue the stop instruction (`self.job_runner.num_runs = 1`, the `Bool`)
when `dags_to_watch` became empty.  `entry` is the watch entry currently
stored for `dag_id` (after the cache write, if one happened). -/
def completeRun (s : SchedState) (dag_id : String) (logical_date : Nat)
    (entry : WatchEntry) : SchedState × Bool :=
  let entry2 : WatchEntry :=
    { waiting_for := entry.waiting_for - 1, runs := aPop entry.runs logical_date }
  let dags1 := aSet s.dags_to_watch dag_id entry2
  let dags2 := if entry2.waiting_for == 0 then aPop dags1 dag_id else dags1
  ({ s with dags_to_watch := dags2 }, dags2.isEmpty)

/-- `ShortCircuitExecutorMixin.change_state(key, state, info)`.  The call to
`super().change_state(...)` only updates the wrapped executor's own
bookkeeping and does not touch the tracker state, so it is not modelled.
The truthiness guard `if run and ...` is omitted: at that point `run` is
always a `DagRun` object, hence truthy. -/
def change_state (db : Db) (s : SchedState) (key : Key) :
    Except PyErr (SchedState × Bool) :=
  match aGet s.dags_to_watch key.dag_id with
  | none => .ok (s, false)  -- `if dag_id not in self.dags_to_watch: return`
  | some entry =>
    match aGet entry.runs key.logical_date with
    | some run =>
      -- cache hit: `run = self.dags_to_watch[dag_id].runs.get(logical_date)`
      if allSuccess db run then
        .ok (completeRun s key.dag_id key.logical_date entry)
      else
        .ok (s, false)
    | none =>
      -- cache miss: `run = airflow.models.DagRun.find(...)[0]` —
      -- indexing an empty find result raises `IndexError`
      match DagRun_find db key.dag_id key.logical_date with
      | [] => .error .indexError
      | run :: _ =>
        let entry1 : WatchEntry :=
          { entry with runs := aSet entry.runs key.logical_date run }
        let s1 : SchedState :=
          { s with dags_to_watch := aSet s.dags_to_watch key.dag_id entry1 }
        if allSuccess db run then
          .ok (completeRun s1 key.dag_id key.logical_date entry1)
        else
          .ok (s1, false)

/-- Resolution of the run reference in `change_state`: the cached object if
present, otherwise the head of the `DagRun.find` result. -/
def resolveRun (db : Db) (entry : WatchEntry) (dag_id : String) (logical_date : Nat) :
    Option DagRun :=
  match aGet entry.runs logical_date with
  | some run => some run
  | none => (DagRun_find db dag_id logical_date).head?

/-- A sequence of `change_state` calls against a fixed persistence layer;
an exception aborts the sequence. -/
def runEvents (db : Db) (s : SchedState) (keys : List Key) : Except PyErr SchedState :=
  match keys with
  | [] => .ok s
  | k :: rest =>
    match change_state db s k with
    | .error e => .error e
    | .ok (s', _) => runEvents db s' rest

/-- A sequence of `change_state` calls, each against the then-current
persistence layer; the `Bool` records whether any call issued the stop
instruction. -/
def runTrace (s : SchedState) : List (Db × Key) → Except PyErr (SchedState × Bool)
  | [] => .ok (s, false)
  | (db, k) :: rest =>
    match change_state db s k with
    | .error e => .error e
    | .ok (s', b) =>
      match runTrace s' rest with
      | .error e => .error e
      | .ok (s'', b') => .ok (s'', b || b')

/-! ### Association-list lemmas -/

theorem aGet_aSet_self {α β : Type} [DecidableEq α] (l : List (α × β)) (k : α) (v : β) :
    aGet (aSet l k v) k = some v := by
  induction l with
  | nil => simp [aGet, aSet]
  | cons p l ih =>
    obtain ⟨k0, v0⟩ := p
    by_cases h : k0 = k <;> simp [aGet, aSet, h, ih]

theorem aGet_aSet_ne {α β : Type} [DecidableEq α] (l : List (α × β)) (k k' : α) (v : β)
    (h : k ≠ k') : aGet (aSet l k v) k' = aGet l k' := by
  induction l with
  | nil => simp [aGet, aSet, h]
  | cons p l ih =>
    obtain ⟨k0, v0⟩ := p
    by_cases h0 : k0 = k
    · subst h0
      simp [aGet, aSet, h]
    · simp only [aSet, if_neg h0, aGet]
      by_cases h1 : k0 = k' <;> simp [aGet, h1, ih]

theorem aGet_aPop_ne {α β : Type} [DecidableEq α] (l : List (α × β)) (k k' : α)
    (h : k ≠ k') : aGet (aPop l k) k' = aGet l k' := by
  induction l with
  | nil => simp [aPop]
  | cons p l ih =>
    obtain ⟨k0, v0⟩ := p
    by_cases h0 : k0 = k
    · subst h0
      simp [aPop, aGet, h]
    · simp only [aPop, if_neg h0, aGet]
      by_cases h1 : k0 = k' <;> simp [h1, ih]

theorem aGet_eq_none_of_not_mem {α β : Type} [DecidableEq α] (l : List (α × β)) (k : α)
    (h : k ∉ l.map Prod.fst) : aGet l k = none := by
  induction l with
  | nil => rfl
  | cons p l ih =>
    obtain ⟨k0, v0⟩ := p
    simp only [List.map_cons, List.mem_cons] at h
    push_neg at h
    have h0 : ¬ k0 = k := fun hq => h.1 hq.symm
    simp [aGet, h0, ih h.2]

theorem aGet_aPop_self {α β : Type} [DecidableEq α] (l : List (α × β)) (k : α)
    (h : keysNodup l) : aGet (aPop l k) k = none := by
  induction l with
  | nil => rfl
  | cons p l ih =>
    obtain ⟨k0, v0⟩ := p
    simp only [keysNodup, List.map_cons, List.nodup_cons] at h
    by_cases h0 : k0 = k
    · subst h0
      simpa [aPop] using aGet_eq_none_of_not_mem l k0 h.1
    · simp [aPop, aGet, h0, ih h.2]

theorem aPop_of_aGet_none {α β : Type} [DecidableEq α] (l : List (α × β)) (k : α)
    (h : aGet l k = none) : aPop l k = l := by
  induction l with
  | nil => rfl
  | cons p l ih =>
    obtain ⟨k0, v0⟩ := p
    by_cases h0 : k0 = k
    · simp [aGet, h0] at h
    · simp only [aGet, if_neg h0] at h
      simp [aPop, h0, ih h]

theorem aPop_aSet_of_none {α β : Type} [DecidableEq α] (l : List (α × β)) (k : α) (v : β)
    (h : aGet l k = none) : aPop (aSet l k v) k = l := by
  induction l with
  | nil => simp [aSet, aPop]
  | cons p l ih =>
    obtain ⟨k0, v0⟩ := p
    by_cases h0 : k0 = k
    · simp [aGet, h0] at h
    · simp only [aGet, if_neg h0] at h
      simp [aSet, aPop, h0, ih h]

theorem aSet_aSet {α β : Type} [DecidableEq α] (l : List (α × β)) (k : α) (v w : β) :
    aSet (aSet l k v) k w = aSet l k w := by
  induction l with
  | nil => simp [aSet]
  | cons p l ih =>
    obtain ⟨k0, v0⟩ := p
    by_cases h0 : k0 = k <;> simp [aSet, h0, ih]

theorem aSet_ne_nil {α β : Type} [DecidableEq α] (l : List (α × β)) (k : α) (v : β) :
    aSet l k v ≠ [] := by
  cases l with
  | nil => simp [aSet]
  | cons p l =>
    obtain ⟨k0, v0⟩ := p
    by_cases h0 : k0 = k <;> simp [aSet, h0]

theorem ne_nil_of_aGet_some {α β : Type} [DecidableEq α] {l : List (α × β)} {k : α} {v : β}
    (h : aGet l k = some v) : l ≠ [] := by
  cases l with
  | nil => simp [aGet] at h
  | cons p l => simp

theorem mem_aSet {α β : Type} [DecidableEq α] {l : List (α × β)} {k : α} {v : β} {p : α × β}
    (h : p ∈ aSet l k v) : p.2 = v ∨ p ∈ l := by
  induction l with
  | nil =>
    simp [aSet] at h
    simp [h]
  | cons q l ih =>
    obtain ⟨k0, v0⟩ := q
    by_cases h0 : k0 = k
    · simp only [aSet, if_pos h0, List.mem_cons] at h
      rcases h with h | h
      · exact .inl (by simp [h])
      · exact .inr (List.mem_cons_of_mem _ h)
    · simp only [aSet, if_neg h0, List.mem_cons] at h
      rcases h with h | h
      · exact .inr (by simp [h])
      · rcases ih h with h1 | h1
        · exact .inl h1
        · exact .inr (List.mem_cons_of_mem _ h1)

theorem aGet_mem {α β : Type} [DecidableEq α] {l : List (α × β)} {k : α} {v : β}
    (h : aGet l k = some v) : (k, v) ∈ l := by
  induction l with
  | nil => simp [aGet] at h
  | cons p l ih =>
    obtain ⟨k0, v0⟩ := p
    by_cases h0 : k0 = k
    · subst h0
      simp [aGet] at h
      simp [h]
    · simp only [aGet, if_neg h0] at h
      exact List.mem_cons_of_mem _ (ih h)

theorem mem_keys_aSet {α β : Type} [DecidableEq α] (l : List (α × β)) (k a : α) (v : β) :
    a ∈ (aSet l k v).map Prod.fst ↔ a ∈ l.map Prod.fst ∨ a = k := by
  induction l with
  | nil => simp [aSet]
  | cons p l ih =>
    obtain ⟨k0, v0⟩ := p
    by_cases h0 : k0 = k
    · subst h0
      simp [aSet]
      tauto
    · simp [aSet, h0, ih]
      tauto

theorem keysNodup_aSet {α β : Type} [DecidableEq α] (l : List (α × β)) (k : α) (v : β)
    (h : keysNodup l) : keysNodup (aSet l k v) := by
  induction l with
  | nil => simp [aSet, keysNodup]
  | cons p l ih =>
    obtain ⟨k0, v0⟩ := p
    simp only [keysNodup, List.map_cons, List.nodup_cons] at h
    by_cases h0 : k0 = k
    · subst h0
      simpa [aSet, keysNodup] using h
    · have := ih h.2
      simp only [aSet, if_neg h0, keysNodup, List.map_cons, List.nodup_cons]
      refine ⟨?_, this⟩
      rw [mem_keys_aSet]
      push_neg
      exact ⟨h.1, h0⟩

theorem mem_keys_aPop {α β : Type} [DecidableEq α] (l : List (α × β)) (k a : α)
    (h : a ∈ (aPop l k).map Prod.fst) : a ∈ l.map Prod.fst := by
  induction l with
  | nil => exact h
  | cons p l ih =>
    obtain ⟨k0, v0⟩ := p
    by_cases h0 : k0 = k
    · simp only [aPop, if_pos h0] at h
      simp only [List.map_cons, List.mem_cons]
      exact .inr h
    · simp only [aPop, if_neg h0, List.map_cons, List.mem_cons] at h ⊢
      rcases h with h | h
      · exact .inl h
      · exact .inr (ih h)

theorem keysNodup_aPop {α β : Type} [DecidableEq α] (l : List (α × β)) (k : α)
    (h : keysNodup l) : keysNodup (aPop l k) := by
  induction l with
  | nil => simpa [aPop] using h
  | cons p l ih =>
    obtain ⟨k0, v0⟩ := p
    simp only [keysNodup, List.map_cons, List.nodup_cons] at h
    by_cases h0 : k0 = k
    · simpa [aPop, h0, keysNodup] using h.2
    · have := ih h.2
      simp only [aPop, if_neg h0, keysNodup, List.map_cons, List.nodup_cons]
      exact ⟨fun hm => h.1 (mem_keys_aPop l k k0 hm), this⟩

theorem aGet_const_map {α β : Type} [DecidableEq α] (l : List α) (v : β) (k : α) :
    aGet (l.map fun d => (d, v)) k = if k ∈ l then some v else none := by
  induction l with
  | nil => simp [aGet]
  | cons a l ih =>
    by_cases h0 : a = k
    · subst h0
      simp [aGet]
    · have h1 : ¬ k = a := fun hq => h0 hq.symm
      simp [aGet, h0, ih, h1]

/-! ### Characterisation of the run-complete branch of `change_state` -/

/-- The watch map left behind by a `change_state` call that found the
resolved run fully successful, when `entry` was the watch entry for
`key.dag_id` on entry to the call. -/
def dagsAfterComplete (s : SchedState) (key : Key) (entry : WatchEntry) :
    List (String × WatchEntry) :=
  let entry2 : WatchEntry :=
    { waiting_for := entry.waiting_for - 1, runs := aPop entry.runs key.logical_date }
  if entry.waiting_for - 1 == 0 then
    aPop (aSet s.dags_to_watch key.dag_id entry2) key.dag_id
  else
    aSet s.dags_to_watch key.dag_id entry2

theorem change_state_success (db : Db) (s : SchedState) (key : Key) (entry : WatchEntry)
    (run : DagRun)
    (he : aGet s.dags_to_watch key.dag_id = some entry)
    (hr : resolveRun db entry key.dag_id key.logical_date = some run)
    (hs : allSuccess db run = true) :
    change_state db s key =
      .ok ({ s with dags_to_watch := dagsAfterComplete s key entry },
           (dagsAfterComplete s key entry).isEmpty) := by
  cases hc : aGet entry.runs key.logical_date with
  | some r =>
    have hr' : r = run := by
      simp [resolveRun, hc] at hr
      exact hr
    subst hr'
    simp only [change_state, he, hc, hs, if_true, completeRun, dagsAfterComplete]
  | none =>
    obtain ⟨l, hf⟩ : ∃ l, DagRun_find db key.dag_id key.logical_date = run :: l := by
      cases hf : DagRun_find db key.dag_id key.logical_date with
      | nil => simp [resolveRun, hc, hf] at hr
      | cons r l =>
        have hr' : r = run := by
          simp [resolveRun, hc, hf] at hr
          exact hr
        subst hr'
        exact ⟨l, rfl⟩
    simp only [change_state, he, hc, hf, hs, if_true, completeRun, dagsAfterComplete]
    rw [aSet_aSet, aPop_aSet_of_none _ _ _ hc, aPop_of_aGet_none _ _ hc]

theorem dagsAfterComplete_spec (s : SchedState) (key : Key) (entry : WatchEntry)
    (hn : keysNodup s.dags_to_watch) :
    (if entry.waiting_for - 1 = 0 then
        aGet (dagsAfterComplete s key entry) key.dag_id = none
      else
        aGet (dagsAfterComplete s key entry) key.dag_id =
          some { waiting_for := entry.waiting_for - 1,
                 runs := aPop entry.runs key.logical_date })
    ∧ keysNodup (dagsAfterComplete s key entry)
    ∧ ∀ d, d ≠ key.dag_id →
        aGet (dagsAfterComplete s key entry) d = aGet s.dags_to_watch d := by
  by_cases h : entry.waiting_for - 1 = 0
  · simp only [dagsAfterComplete, h, beq_self_eq_true, if_true, if_pos h]
    refine ⟨aGet_aPop_self _ _ (keysNodup_aSet _ _ _ hn),
      keysNodup_aPop _ _ (keysNodup_aSet _ _ _ hn), fun d hd => ?_⟩
    rw [aGet_aPop_ne _ _ _ (fun hq => hd hq.symm),
      aGet_aSet_ne _ _ _ _ (fun hq => hd hq.symm)]
  · have hb : (entry.waiting_for - 1 == 0) = false := by
      simpa using h
    simp only [dagsAfterComplete, hb, Bool.false_eq_true, if_false, if_neg h]
    exact ⟨aGet_aSet_self _ _ _, keysNodup_aSet _ _ _ hn,
      fun d hd => aGet_aSet_ne _ _ _ _ (fun hq => hd hq.symm)⟩

theorem change_state_mono (db : Db) (s : SchedState) (key : Key) (s' : SchedState) (b : Bool)
    (hn : keysNodup s.dags_to_watch)
    (h : change_state db s key = .ok (s', b))
    (d : String) (e e' : WatchEntry)
    (he : aGet s.dags_to_watch d = some e)
    (he' : aGet s'.dags_to_watch d = some e') :
    e'.waiting_for ≤ e.waiting_for := by
  cases hw : aGet s.dags_to_watch key.dag_id with
  | none =>
    simp only [change_state, hw, Except.ok.injEq, Prod.mk.injEq] at h
    rw [← h.1] at he'
    rw [he'] at he
    simp_all
  | some entry =>
    have success_case :
        change_state db s key =
          .ok ({ s with dags_to_watch := dagsAfterComplete s key entry },
               (dagsAfterComplete s key entry).isEmpty) →
        e'.waiting_for ≤ e.waiting_for := by
      intro hcs
      rw [hcs, Except.ok.injEq, Prod.mk.injEq] at h
      obtain ⟨hspec1, _, hspec3⟩ := dagsAfterComplete_spec s key entry hn
      by_cases hd : d = key.dag_id
      · subst hd
        rw [hw] at he
        injection he with he
        rw [← h.1] at he'
        by_cases hz : entry.waiting_for - 1 = 0
        · rw [if_pos hz] at hspec1
          rw [hspec1] at he'
          cases he'
        · rw [if_neg hz] at hspec1
          rw [hspec1] at he'
          injection he' with he'
          rw [← he', ← he]
          dsimp only
          omega
      · rw [← h.1] at he'
        rw [hspec3 d hd, he] at he'
        injection he' with he'
        rw [← he']
    cases hc : aGet entry.runs key.logical_date with
    | some run =>
      cases hs : allSuccess db run with
      | true =>
        exact success_case
          (change_state_success db s key entry run hw (by simp [resolveRun, hc]) hs)
      | false =>
        simp only [change_state, hw, hc, hs, Bool.false_eq_true, if_false,
          Except.ok.injEq, Prod.mk.injEq] at h
        rw [← h.1] at he'
        rw [he'] at he
        simp_all
    | none =>
      cases hf : DagRun_find db key.dag_id key.logical_date with
      | nil => simp [change_state, hw, hc, hf] at h
      | cons run l =>
        cases hs : allSuccess db run with
        | true =>
          exact success_case
            (change_state_success db s key entry run hw (by simp [resolveRun, hc, hf]) hs)
        | false =>
          simp only [change_state, hw, hc, hf, hs, Bool.false_eq_true, if_false,
            Except.ok.injEq, Prod.mk.injEq] at h
          by_cases hd : d = key.dag_id
          · subst hd
            rw [hw] at he
            injection he with he
            rw [← h.1] at he'
            rw [aGet_aSet_self] at he'
            injection he' with he'
            rw [← he', ← he]
          · rw [← h.1] at he'
            rw [aGet_aSet_ne _ _ _ _ (fun hq => hd hq.symm), he] at he'
            injection he' with he'
            rw [← he']

theorem isEmpty_eq_iff {α : Type} (l : List α) : l.isEmpty = true ↔ l = [] := by
  cases l <;> simp

/-! ### Claim C1 -/

/-- C1 counterexample: a state-change event for the watched dag `dag1`
whose run is neither cached nor present in the persistence layer makes
`change_state` raise `IndexError` (from `DagRun.find(...)[0]` on an empty
result) — it does not defer and return normally as the claim states. -/
theorem c1_missing_run_counterexample :
    change_state { rows := [] } (ShortCircuit_init ["dag1"] 1)
      { dag_id := "dag1", task_id := "t", logical_date := 0, try_number := 1 } =
    .error .indexError := rfl

/-- C1 (amended): for every task-state-change event whose run the
persistence layer cannot yet locate (the run is not in the cache and the
lookup by workflow id and logical timestamp returns no run record),
`onTaskStateChanged` raises an `IndexError` — it neither updates the watch
set nor returns normally. -/
theorem c1_missing_run_raises (db : Db) (s : SchedState) (key : Key) (entry : WatchEntry)
    (hw : aGet s.dags_to_watch key.dag_id = some entry)
    (hc : aGet entry.runs key.logical_date = none)
    (hf : DagRun_find db key.dag_id key.logical_date = []) :
    change_state db s key = .error .indexError := by
  simp [change_state, hw, hc, hf]

/-- Witness for `c1_missing_run_raises` at a concrete input. -/
theorem c1_missing_run_raises_witness :
    change_state { rows := [⟨"other", 5, []⟩] } (ShortCircuit_init ["w1"] 3)
      { dag_id := "w1", task_id := "task", logical_date := 5, try_number := 1 } =
    .error .indexError :=
  c1_missing_run_raises _ _ _ { waiting_for := 3, runs := [] } rfl rfl rfl

/-! ### Claim C2 -/

/-- C2 counterexample: workflow `d` with `remainingRuns = 2`; its run at
logical date 5 (all tasks successful, its record still in the persistence
layer) is delivered twice.  The first delivery counts the run and evicts it
from the cache; the second delivery re-fetches it from the persistence
layer and decrements `waiting_for` again, so the watch-set state after the
second delivery differs from the state after the first — refuting the
claim that the second delivery leaves the state unchanged. -/
theorem c2_redelivery_counterexample :
    change_state { rows := [⟨"d", 5, [⟨"t", .success⟩]⟩] } (ShortCircuit_init ["d"] 2)
      { dag_id := "d", task_id := "t", logical_date := 5, try_number := 1 } =
    .ok ({ num_runs_per_dag := 2,
           dags_to_watch := [("d", { waiting_for := 1, runs := [] })] }, false) ∧
    change_state { rows := [⟨"d", 5, [⟨"t", .success⟩]⟩] }
      { num_runs_per_dag := 2, dags_to_watch := [("d", { waiting_for := 1, runs := [] })] }
      { dag_id := "d", task_id := "t", logical_date := 5, try_number := 1 } =
    .ok ({ num_runs_per_dag := 2, dags_to_watch := [] }, true) ∧
    ({ num_runs_per_dag := 2, dags_to_watch := [] } : SchedState) ≠
      { num_runs_per_dag := 2, dags_to_watch := [("d", { waiting_for := 1, runs := [] })] } :=
  ⟨rfl, rfl, by simp⟩

/-- C2 (amended): for every tracked workflow, delivering a further terminal
task-state-change event for a run that was already counted and evicted from
the cache, while its record is still present in the persistence layer with
all task instances successful, does not raise an error but decrements that
workflow's `waiting_for` again (re-fetching the run), removing the workflow
when the counter reaches zero. -/
theorem c2_redelivery_decrements_again (db : Db) (s : SchedState) (key : Key)
    (entry : WatchEntry) (run : DagRun) (l : List DagRun)
    (hn : keysNodup s.dags_to_watch)
    (hw : aGet s.dags_to_watch key.dag_id = some entry)
    (hc : aGet entry.runs key.logical_date = none)
    (hf : DagRun_find db key.dag_id key.logical_date = run :: l)
    (hs : allSuccess db run = true) :
    ∃ dags2,
      change_state db s key = .ok ({ s with dags_to_watch := dags2 }, dags2.isEmpty) ∧
      (if entry.waiting_for - 1 = 0 then aGet dags2 key.dag_id = none
       else aGet dags2 key.dag_id =
         some { waiting_for := entry.waiting_for - 1,
                runs := aPop entry.runs key.logical_date }) :=
  ⟨dagsAfterComplete s key entry,
   change_state_success db s key entry run hw (by simp [resolveRun, hc, hf]) hs,
   (dagsAfterComplete_spec s key entry hn).1⟩

/-- Witness for `c2_redelivery_decrements_again`: the second delivery of
the C2 counterexample scenario, where the decrement reaches zero and the
workflow is removed. -/
theorem c2_redelivery_witness :
    ∃ dags2,
      change_state { rows := [⟨"d", 5, [⟨"t", .success⟩]⟩] }
        { num_runs_per_dag := 2, dags_to_watch := [("d", { waiting_for := 1, runs := [] })] }
        { dag_id := "d", task_id := "t", logical_date := 5, try_number := 1 } =
      .ok ({ num_runs_per_dag := 2, dags_to_watch := dags2 }, dags2.isEmpty) ∧
      (if (1 : Int) - 1 = 0 then aGet dags2 "d" = none
       else aGet dags2 "d" = some { waiting_for := (1 : Int) - 1, runs := [] }) :=
  c2_redelivery_decrements_again _ _ _ { waiting_for := 1, runs := [] } ⟨"d", 5⟩ []
    (by simp [keysNodup]) rfl rfl rfl rfl

/-! ### Claim C3 -/

/-- The guard `if not count:` of the per-trial loop of `main` (the block
that wipes persisted state with `reset_dag`, calls `executor.reset`, and
rebuilds the job): it runs exactly when the trial index is zero. -/
def resetBeforeTrial (count : Nat) : Bool := count == 0

/-- For the trial loop `for count in range(repeat)`, whether each of the
`repeat` trials is preceded by the reset block. -/
def trialResetSchedule (reps : Nat) : List Bool :=
  (List.range reps).map resetBeforeTrial

/-- C3: with the default `--repeat=3`, the driver's reset block runs only
before the first trial — trials 2 and 3 are not preceded by a reset of the
persisted state and the tracker, contradicting the claim that the reset
happens before each of the R trials. -/
theorem c3_reset_only_first_trial :
    trialResetSchedule 3 = [true, false, false] ∧
    (List.range 3).filter (fun count => resetBeforeTrial count) = [0] :=
  ⟨rfl, rfl⟩

/-! ### Claim C4 -/

/-- C4: a `change_state` call that returns normally issues the stop
instruction (`self.job_runner.num_runs = 1`) exactly when the watch set was
non-empty on entry and is empty on exit: global completion is signalled on
the exact event that empties `dags_to_watch`, never before (the set is
still non-empty afterwards) and never after (once the set is empty every
later call returns at the untracked-dag guard without signalling). -/
theorem c4_stop_iff_emptied (db : Db) (s : SchedState) (key : Key) (s' : SchedState)
    (b : Bool) (h : change_state db s key = .ok (s', b)) :
    b = true ↔ (s.dags_to_watch ≠ [] ∧ s'.dags_to_watch = []) := by
  cases hw : aGet s.dags_to_watch key.dag_id with
  | none =>
    simp only [change_state, hw, Except.ok.injEq, Prod.mk.injEq] at h
    obtain ⟨h1, h2⟩ := h
    subst h1
    subst h2
    constructor
    · intro hb
      simp at hb
    · rintro ⟨hne, hnil⟩
      exact absurd hnil hne
  | some entry =>
    have hne : s.dags_to_watch ≠ [] := ne_nil_of_aGet_some hw
    have success_case : ∀ D : List (String × WatchEntry),
        s' = { s with dags_to_watch := D } → b = D.isEmpty →
        (b = true ↔ (s.dags_to_watch ≠ [] ∧ s'.dags_to_watch = [])) := by
      intro D h1 h2
      subst h1
      subst h2
      simp [hne, isEmpty_eq_iff]
    cases hc : aGet entry.runs key.logical_date with
    | some run =>
      cases hs : allSuccess db run with
      | true =>
        have hcs := change_state_success db s key entry run hw (by simp [resolveRun, hc]) hs
        rw [hcs, Except.ok.injEq, Prod.mk.injEq] at h
        exact success_case _ h.1.symm h.2.symm
      | false =>
        simp only [change_state, hw, hc, hs, Bool.false_eq_true, if_false,
          Except.ok.injEq, Prod.mk.injEq] at h
        obtain ⟨h1, h2⟩ := h
        subst h1
        subst h2
        constructor
        · intro hb
          simp at hb
        · rintro ⟨_, hnil⟩
          exact absurd hnil hne
    | none =>
      cases hf : DagRun_find db key.dag_id key.logical_date with
      | nil => simp [change_state, hw, hc, hf] at h
      | cons run l =>
        cases hs : allSuccess db run with
        | true =>
          have hcs := change_state_success db s key entry run hw
            (by simp [resolveRun, hc, hf]) hs
          rw [hcs, Except.ok.injEq, Prod.mk.injEq] at h
          exact success_case _ h.1.symm h.2.symm
        | false =>
          simp only [change_state, hw, hc, hf, hs, Bool.false_eq_true, if_false,
            Except.ok.injEq, Prod.mk.injEq] at h
          obtain ⟨h1, h2⟩ := h
          subst h2
          constructor
          · intro hb
            simp at hb
          · rintro ⟨_, hnil⟩
            rw [← h1] at hnil
            exact absurd hnil (aSet_ne_nil _ _ _)

/-- Witness for `c4_stop_iff_emptied`: scenario A — one workflow, one run,
a single success event empties the watch set and issues the stop
instruction in that very call. -/
theorem c4_stop_iff_emptied_witness :
    true = true ↔
      ((ShortCircuit_init ["a"] 1).dags_to_watch ≠ [] ∧
       ({ num_runs_per_dag := 1, dags_to_watch := [] } : SchedState).dags_to_watch = []) :=
  c4_stop_iff_emptied { rows := [⟨"a", 1, [⟨"t", .success⟩]⟩] } (ShortCircuit_init ["a"] 1)
    { dag_id := "a", task_id := "t", logical_date := 1, try_number := 1 }
    { num_runs_per_dag := 1, dags_to_watch := [] } true rfl


/-! ### Reset and trace lemmas -/

theorem aGet_reset (s : SchedState) (ids : List String) (d : String) :
    aGet (ShortCircuit_reset s ids).dags_to_watch d =
      if d ∈ ids then some { waiting_for := s.num_runs_per_dag, runs := [] } else none := by
  simp only [ShortCircuit_reset]
  rw [aGet_const_map]
  simp [List.mem_dedup]

theorem keysNodup_reset (s : SchedState) (ids : List String) :
    keysNodup (ShortCircuit_reset s ids).dags_to_watch := by
  simp only [ShortCircuit_reset, keysNodup, List.map_map]
  have hcomp :
      (Prod.fst ∘ fun dag_id => ((dag_id, { waiting_for := s.num_runs_per_dag, runs := [] }) :
        String × WatchEntry)) = fun dag_id => dag_id := rfl
  rw [hcomp]
  simpa using ids.nodup_dedup

/-- A success event for a watched workflow whose entry has an empty cache:
the run is fetched from the persistence layer, counted, and the entry's
counter decremented (the workflow removed when it reaches zero). -/
theorem step_success_fresh (db : Db) (s : SchedState) (d tid : String) (ld tn : Nat)
    (w : Int) (run : DagRun) (l : List DagRun)
    (hn : keysNodup s.dags_to_watch)
    (hw : aGet s.dags_to_watch d = some { waiting_for := w, runs := [] })
    (hf : DagRun_find db d ld = run :: l)
    (hs : allSuccess db run = true) :
    ∃ D, change_state db s ⟨d, tid, ld, tn⟩ =
        .ok ((⟨s.num_runs_per_dag, D⟩ : SchedState), D.isEmpty) ∧
      keysNodup D ∧
      (w - 1 = 0 → aGet D d = none) ∧
      (w - 1 ≠ 0 → aGet D d = some { waiting_for := w - 1, runs := [] }) := by
  have hcs := change_state_success db s ⟨d, tid, ld, tn⟩ { waiting_for := w, runs := [] }
    run hw (by simp [resolveRun, aGet, hf]) hs
  obtain ⟨h1, h2, _⟩ :=
    dagsAfterComplete_spec s ⟨d, tid, ld, tn⟩ { waiting_for := w, runs := [] } hn
  dsimp only at h1
  simp only [aPop] at h1
  refine ⟨_, hcs, h2, ?_, ?_⟩
  · intro hz
    rwa [if_pos hz] at h1
  · intro hz
    rwa [if_neg hz] at h1

theorem runEvents_absent (db : Db) (d tid : String) (tn : Nat) :
    ∀ (dates : List Nat) (s : SchedState),
      dates ≠ [] →
      keysNodup s.dags_to_watch →
      aGet s.dags_to_watch d = some { waiting_for := (dates.length : Int), runs := [] } →
      (∀ ld ∈ dates, ∃ run l, DagRun_find db d ld = run :: l ∧ allSuccess db run = true) →
      ∃ s', runEvents db s
          (dates.map fun ld =>
            { dag_id := d, task_id := tid, logical_date := ld, try_number := tn }) = .ok s' ∧
        aGet s'.dags_to_watch d = none := by
  intro dates
  induction dates with
  | nil =>
    intro s hne
    exact absurd rfl hne
  | cons ld rest ih =>
    intro s _ hn hw hall
    obtain ⟨run, l, hf, hs⟩ := hall ld (by simp)
    obtain ⟨D, hcs, hDn, hz0, hzn⟩ :=
      step_success_fresh db s d tid ld tn ((ld :: rest).length : Int) run l hn hw hf hs
    have hrw : runEvents db s ((ld :: rest).map fun ld0 => (⟨d, tid, ld0, tn⟩ : Key)) =
        runEvents db (⟨s.num_runs_per_dag, D⟩ : SchedState)
          (rest.map fun ld0 => (⟨d, tid, ld0, tn⟩ : Key)) := by
      simp [runEvents, hcs]
    cases rest with
    | nil =>
      refine ⟨(⟨s.num_runs_per_dag, D⟩ : SchedState), ?_, ?_⟩
      · rw [hrw]
        rfl
      · exact hz0 (by simp)
    | cons r rs =>
      have hz : (((ld :: r :: rs).length : Nat) : Int) - 1 ≠ 0 := by
        simp only [List.length_cons]
        push_cast
        omega
      have hget := hzn hz
      have harith : (((ld :: r :: rs).length : Nat) : Int) - 1 = (((r :: rs).length : Nat) : Int) := by
        simp only [List.length_cons]
        push_cast
        ring
      rw [harith] at hget
      obtain ⟨s', h1, h2⟩ := ih (⟨s.num_runs_per_dag, D⟩ : SchedState) (by simp) hDn hget
        (fun ld0 hld0 => hall ld0 (List.mem_cons_of_mem _ hld0))
      refine ⟨s', ?_, h2⟩
      rw [hrw]
      exact h1

/-! ### Claim C5 -/

/-- C5: (i) every `change_state` call whose resolved run has all task
instances in the terminal-success state evicts that run from the cache and
decrements that workflow's `waiting_for` by exactly one, removing the
workflow from the watch set exactly when the counter reaches zero;
(ii) `waiting_for` never increases across a call; (iii) starting from a
fresh tracker with target `R ≥ 1`, after events for `R` distinct runs of
workflow `d`, each fully successful in the persistence layer, `d` is
absent from the watch set. -/
theorem c5_run_counting :
    (∀ (db : Db) (s : SchedState) (key : Key) (entry : WatchEntry) (run : DagRun),
      keysNodup s.dags_to_watch →
      keysNodup entry.runs →
      aGet s.dags_to_watch key.dag_id = some entry →
      resolveRun db entry key.dag_id key.logical_date = some run →
      allSuccess db run = true →
      ∃ dags2,
        change_state db s key = .ok ({ s with dags_to_watch := dags2 }, dags2.isEmpty) ∧
        (if entry.waiting_for - 1 = 0 then aGet dags2 key.dag_id = none
         else
           aGet dags2 key.dag_id =
             some { waiting_for := entry.waiting_for - 1,
                    runs := aPop entry.runs key.logical_date } ∧
           aGet (aPop entry.runs key.logical_date) key.logical_date = none)) ∧
    (∀ (db : Db) (s : SchedState) (key : Key) (s' : SchedState) (b : Bool),
      keysNodup s.dags_to_watch →
      change_state db s key = .ok (s', b) →
      ∀ (d : String) (e e' : WatchEntry),
        aGet s.dags_to_watch d = some e → aGet s'.dags_to_watch d = some e' →
        e'.waiting_for ≤ e.waiting_for) ∧
    (∀ (d tid : String) (tn R : Nat) (ids : List String) (dates : List Nat) (db : Db),
      1 ≤ R → R = dates.length → dates.Nodup → d ∈ ids →
      (∀ ld ∈ dates, ∃ run l, DagRun_find db d ld = run :: l ∧ allSuccess db run = true) →
      ∃ s', runEvents db (ShortCircuit_init ids (R : Int))
          (dates.map fun ld =>
            { dag_id := d, task_id := tid, logical_date := ld, try_number := tn }) = .ok s' ∧
        aGet s'.dags_to_watch d = none) := by
  refine ⟨?_, ?_, ?_⟩
  · intro db s key entry run hn hcn hw hr hs
    refine ⟨dagsAfterComplete s key entry,
      change_state_success db s key entry run hw hr hs, ?_⟩
    obtain ⟨hspec1, _, _⟩ := dagsAfterComplete_spec s key entry hn
    by_cases hz : entry.waiting_for - 1 = 0
    · rw [if_pos hz] at hspec1 ⊢
      exact hspec1
    · rw [if_neg hz] at hspec1 ⊢
      exact ⟨hspec1, aGet_aPop_self _ _ hcn⟩
  · intro db s key s' b hn h d e e' he he'
    exact change_state_mono db s key s' b hn h d e e' he he'
  · intro d tid tn R ids dates db hR hlen hnd hmem hall
    have hne : dates ≠ [] := by
      intro hq
      rw [hq] at hlen
      simp at hlen
      omega
    refine runEvents_absent db d tid tn dates (ShortCircuit_init ids (R : Int)) hne
      (keysNodup_reset _ _) ?_ hall
    rw [ShortCircuit_init, aGet_reset, if_pos hmem]
    subst hlen
    rfl

/-- Witness for `c5_run_counting`: each conjunct applied at a concrete
input — (i) a success event for workflow `m` with target 2, (ii) a
non-success event (cache write only) leaving `waiting_for` unchanged,
(iii) one workflow with target 1 and one successful run. -/
theorem c5_run_counting_witness :
    (∃ dags2,
      change_state { rows := [⟨"m", 4, [⟨"t", .success⟩]⟩] } (ShortCircuit_init ["m"] 2)
          { dag_id := "m", task_id := "tk", logical_date := 4, try_number := 0 } =
        .ok ({ num_runs_per_dag := 2, dags_to_watch := dags2 }, dags2.isEmpty) ∧
      (if (2 : Int) - 1 = 0 then aGet dags2 "m" = none
       else
         aGet dags2 "m" = some { waiting_for := (2 : Int) - 1, runs := [] } ∧
         aGet ([] : List (Nat × DagRun)) 4 = none)) ∧
    ((⟨2, [(4, ⟨"m", 4⟩)]⟩ : WatchEntry).waiting_for ≤ (⟨2, []⟩ : WatchEntry).waiting_for) ∧
    (∃ s', runEvents { rows := [⟨"m", 4, [⟨"t", .success⟩]⟩] }
        (ShortCircuit_init ["m"] ((1 : Nat) : Int))
        ([4].map fun ld =>
          { dag_id := "m", task_id := "tk", logical_date := ld, try_number := 0 }) = .ok s' ∧
      aGet s'.dags_to_watch "m" = none) :=
  ⟨c5_run_counting.1 { rows := [⟨"m", 4, [⟨"t", .success⟩]⟩] } (ShortCircuit_init ["m"] 2)
      { dag_id := "m", task_id := "tk", logical_date := 4, try_number := 0 }
      { waiting_for := 2, runs := [] } ⟨"m", 4⟩ (by decide) (by decide) rfl rfl rfl,
   c5_run_counting.2.1 { rows := [⟨"m", 4, [⟨"t", .running⟩]⟩] } (ShortCircuit_init ["m"] 2)
      { dag_id := "m", task_id := "tk", logical_date := 4, try_number := 0 }
      { num_runs_per_dag := 2,
        dags_to_watch := [("m", { waiting_for := 2, runs := [(4, ⟨"m", 4⟩)] })] } false
      (by decide) rfl "m" ⟨2, []⟩ ⟨2, [(4, ⟨"m", 4⟩)]⟩ rfl rfl,
   c5_run_counting.2.2 "m" "tk" 0 1 ["m"] [4] { rows := [⟨"m", 4, [⟨"t", .success⟩]⟩] }
      (Nat.le_refl 1) rfl (by simp) (by simp)
      (by
        intro ld hld
        rw [List.mem_singleton] at hld
        subst hld
        exact ⟨⟨"m", 4⟩, [], rfl, rfl⟩)⟩

/-! ### Claim C6 -/

/-- C6: `reset` rebuilds `dags_to_watch` from scratch: the result does not
depend on the prior watch state (only on the configured target
`num_runs_per_dag`), calling it twice equals calling it once, and every
requested dag id maps to a fresh entry with `waiting_for` equal to the
configured target and an empty run cache (ids not requested are absent). -/
theorem c6_reset_idempotent (s t : SchedState) (ids : List String) :
    (s.num_runs_per_dag = t.num_runs_per_dag →
      ShortCircuit_reset s ids = ShortCircuit_reset t ids) ∧
    ShortCircuit_reset (ShortCircuit_reset s ids) ids = ShortCircuit_reset s ids ∧
    (∀ d, aGet (ShortCircuit_reset s ids).dags_to_watch d =
      if d ∈ ids then some { waiting_for := s.num_runs_per_dag, runs := [] } else none) := by
  refine ⟨?_, rfl, fun d => aGet_reset s ids d⟩
  intro h
  simp [ShortCircuit_reset, h]

/-- Witness for `c6_reset_idempotent`: two different prior states with the
same configured target yield the same watch set; resetting twice equals
resetting once; the entry for a watched id is the fresh one. -/
theorem c6_reset_idempotent_witness :
    ShortCircuit_reset
        { num_runs_per_dag := 2,
          dags_to_watch := [("x", { waiting_for := 0, runs := [(1, ⟨"x", 1⟩)] })] }
        ["a", "b"] =
      ShortCircuit_reset { num_runs_per_dag := 2, dags_to_watch := [] } ["a", "b"] ∧
    ShortCircuit_reset
        (ShortCircuit_reset
          { num_runs_per_dag := 2,
            dags_to_watch := [("x", { waiting_for := 0, runs := [(1, ⟨"x", 1⟩)] })] }
          ["a", "b"])
        ["a", "b"] =
      ShortCircuit_reset
        { num_runs_per_dag := 2,
          dags_to_watch := [("x", { waiting_for := 0, runs := [(1, ⟨"x", 1⟩)] })] }
        ["a", "b"] ∧
    aGet (ShortCircuit_reset
        { num_runs_per_dag := 2,
          dags_to_watch := [("x", { waiting_for := 0, runs := [(1, ⟨"x", 1⟩)] })] }
        ["a", "b"]).dags_to_watch "a" =
      (if "a" ∈ ["a", "b"] then some { waiting_for := (2 : Int), runs := [] } else none) :=
  ⟨(c6_reset_idempotent
      { num_runs_per_dag := 2,
        dags_to_watch := [("x", { waiting_for := 0, runs := [(1, ⟨"x", 1⟩)] })] }
      { num_runs_per_dag := 2, dags_to_watch := [] } ["a", "b"]).1 rfl,
   (c6_reset_idempotent
      { num_runs_per_dag := 2,
        dags_to_watch := [("x", { waiting_for := 0, runs := [(1, ⟨"x", 1⟩)] })] }
      { num_runs_per_dag := 2, dags_to_watch := [] } ["a", "b"]).2.1,
   (c6_reset_idempotent
      { num_runs_per_dag := 2,
        dags_to_watch := [("x", { waiting_for := 0, runs := [(1, ⟨"x", 1⟩)] })] }
      { num_runs_per_dag := 2, dags_to_watch := [] } ["a", "b"]).2.2 "a"⟩

/-! ### Claim C7 -/

/-- C7: an event whose resolved run has zero task instances treats the run
as immediately complete (`all` over an empty list is vacuously true): the
run is evicted and the workflow's `waiting_for` is decremented on that
event (with removal when it reaches zero). -/
theorem c7_zero_task_run_complete (db : Db) (s : SchedState) (key : Key)
    (entry : WatchEntry) (run : DagRun)
    (hn : keysNodup s.dags_to_watch)
    (hw : aGet s.dags_to_watch key.dag_id = some entry)
    (hr : resolveRun db entry key.dag_id key.logical_date = some run)
    (h0 : get_task_instances db run = []) :
    ∃ dags2,
      change_state db s key = .ok ({ s with dags_to_watch := dags2 }, dags2.isEmpty) ∧
      (if entry.waiting_for - 1 = 0 then aGet dags2 key.dag_id = none
       else aGet dags2 key.dag_id =
         some { waiting_for := entry.waiting_for - 1,
                runs := aPop entry.runs key.logical_date }) := by
  have hs : allSuccess db run = true := by
    simp [allSuccess, h0]
  exact ⟨dagsAfterComplete s key entry,
    change_state_success db s key entry run hw hr hs,
    (dagsAfterComplete_spec s key entry hn).1⟩

/-- Witness for `c7_zero_task_run_complete`: workflow `z` with target 1 and
a persisted run with an empty task-instance list; the event for that run
completes it immediately and removes `z` from the watch set. -/
theorem c7_zero_task_run_complete_witness :
    ∃ dags2,
      change_state { rows := [⟨"z", 7, []⟩] } (ShortCircuit_init ["z"] 1)
          { dag_id := "z", task_id := "t", logical_date := 7, try_number := 0 } =
        .ok ({ num_runs_per_dag := 1, dags_to_watch := dags2 }, dags2.isEmpty) ∧
      (if (1 : Int) - 1 = 0 then aGet dags2 "z" = none
       else aGet dags2 "z" = some { waiting_for := (1 : Int) - 1, runs := [] }) :=
  c7_zero_task_run_complete { rows := [⟨"z", 7, []⟩] } (ShortCircuit_init ["z"] 1)
    { dag_id := "z", task_id := "t", logical_date := 7, try_number := 0 }
    { waiting_for := 1, runs := [] } ⟨"z", 7⟩ (by decide) rfl rfl rfl

/-! ### Removal and zero-target lemmas -/

theorem isEmpty_eq_false_of_ne_nil {α : Type} {l : List α} (h : l ≠ []) :
    l.isEmpty = false := by
  cases l with
  | nil => exact absurd rfl h
  | cons a l => rfl

/-- A workflow disappears from the watch set during a `change_state` call
only when that call decremented its counter to exactly zero. -/
theorem change_state_removal (db : Db) (s : SchedState) (key : Key) (s' : SchedState)
    (b : Bool) (d : String) (e : WatchEntry)
    (hn : keysNodup s.dags_to_watch)
    (h : change_state db s key = .ok (s', b))
    (he : aGet s.dags_to_watch d = some e)
    (hgone : aGet s'.dags_to_watch d = none) :
    e.waiting_for - 1 = 0 := by
  cases hw : aGet s.dags_to_watch key.dag_id with
  | none =>
    simp only [change_state, hw, Except.ok.injEq, Prod.mk.injEq] at h
    rw [← h.1] at hgone
    rw [he] at hgone
    cases hgone
  | some entry =>
    have success_case :
        change_state db s key =
          .ok ({ s with dags_to_watch := dagsAfterComplete s key entry },
               (dagsAfterComplete s key entry).isEmpty) →
        e.waiting_for - 1 = 0 := by
      intro hcs
      rw [hcs, Except.ok.injEq, Prod.mk.injEq] at h
      obtain ⟨hspec1, _, hspec3⟩ := dagsAfterComplete_spec s key entry hn
      by_cases hd : d = key.dag_id
      · subst hd
        rw [hw] at he
        injection he with he
        by_cases hz : entry.waiting_for - 1 = 0
        · rw [← he]
          exact hz
        · rw [if_neg hz] at hspec1
          rw [← h.1] at hgone
          rw [hspec1] at hgone
          cases hgone
      · rw [← h.1] at hgone
        rw [hspec3 d hd, he] at hgone
        cases hgone
    cases hc : aGet entry.runs key.logical_date with
    | some run =>
      cases hs : allSuccess db run with
      | true =>
        exact success_case
          (change_state_success db s key entry run hw (by simp [resolveRun, hc]) hs)
      | false =>
        simp only [change_state, hw, hc, hs, Bool.false_eq_true, if_false,
          Except.ok.injEq, Prod.mk.injEq] at h
        rw [← h.1] at hgone
        rw [he] at hgone
        cases hgone
    | none =>
      cases hf : DagRun_find db key.dag_id key.logical_date with
      | nil => simp [change_state, hw, hc, hf] at h
      | cons run l =>
        cases hs : allSuccess db run with
        | true =>
          exact success_case
            (change_state_success db s key entry run hw (by simp [resolveRun, hc, hf]) hs)
        | false =>
          simp only [change_state, hw, hc, hf, hs, Bool.false_eq_true, if_false,
            Except.ok.injEq, Prod.mk.injEq] at h
          rw [← h.1] at hgone
          by_cases hd : d = key.dag_id
          · subst hd
            rw [aGet_aSet_self] at hgone
            cases hgone
          · rw [aGet_aSet_ne _ _ _ _ (fun hq => hd hq.symm), he] at hgone
            cases hgone

/-- A `change_state` call on a state whose counters are all non-positive
keeps the watch set non-empty, keeps every counter non-positive, and never
issues the stop instruction. -/
theorem nonpos_invariant_step (db : Db) (s : SchedState) (key : Key) (s' : SchedState)
    (b : Bool)
    (h : change_state db s key = .ok (s', b))
    (hne : s.dags_to_watch ≠ [])
    (hle : ∀ p ∈ s.dags_to_watch, (Prod.snd p).waiting_for ≤ 0) :
    (s'.dags_to_watch ≠ [] ∧ ∀ p ∈ s'.dags_to_watch, (Prod.snd p).waiting_for ≤ 0) ∧
      b = false := by
  cases hw : aGet s.dags_to_watch key.dag_id with
  | none =>
    simp only [change_state, hw, Except.ok.injEq, Prod.mk.injEq] at h
    obtain ⟨h1, h2⟩ := h
    subst h1
    subst h2
    exact ⟨⟨hne, hle⟩, rfl⟩
  | some entry =>
    have hent : entry.waiting_for ≤ 0 := hle (key.dag_id, entry) (aGet_mem hw)
    have success_case :
        change_state db s key =
          .ok ({ s with dags_to_watch := dagsAfterComplete s key entry },
               (dagsAfterComplete s key entry).isEmpty) →
        (s'.dags_to_watch ≠ [] ∧ ∀ p ∈ s'.dags_to_watch, (Prod.snd p).waiting_for ≤ 0) ∧
          b = false := by
      intro hcs
      rw [hcs, Except.ok.injEq, Prod.mk.injEq] at h
      have hbne : entry.waiting_for - 1 ≠ 0 := by omega
      have hb : (entry.waiting_for - 1 == 0) = false := by
        simpa using hbne
      have hD : dagsAfterComplete s key entry =
          aSet s.dags_to_watch key.dag_id
            { waiting_for := entry.waiting_for - 1,
              runs := aPop entry.runs key.logical_date } := by
        simp only [dagsAfterComplete, hb, Bool.false_eq_true, if_false]
      refine ⟨⟨?_, ?_⟩, ?_⟩
      · rw [← h.1]
        dsimp only
        rw [hD]
        exact aSet_ne_nil _ _ _
      · intro p hp
        rw [← h.1] at hp
        dsimp only at hp
        rw [hD] at hp
        rcases mem_aSet hp with hv | hv
        · rw [hv]
          dsimp only
          omega
        · exact hle p hv
      · rw [← h.2, hD]
        exact isEmpty_eq_false_of_ne_nil (aSet_ne_nil _ _ _)
    cases hc : aGet entry.runs key.logical_date with
    | some run =>
      cases hs : allSuccess db run with
      | true =>
        exact success_case
          (change_state_success db s key entry run hw (by simp [resolveRun, hc]) hs)
      | false =>
        simp only [change_state, hw, hc, hs, Bool.false_eq_true, if_false,
          Except.ok.injEq, Prod.mk.injEq] at h
        obtain ⟨h1, h2⟩ := h
        subst h1
        subst h2
        exact ⟨⟨hne, hle⟩, rfl⟩
    | none =>
      cases hf : DagRun_find db key.dag_id key.logical_date with
      | nil => simp [change_state, hw, hc, hf] at h
      | cons run l =>
        cases hs : allSuccess db run with
        | true =>
          exact success_case
            (change_state_success db s key entry run hw (by simp [resolveRun, hc, hf]) hs)
        | false =>
          simp only [change_state, hw, hc, hf, hs, Bool.false_eq_true, if_false,
            Except.ok.injEq, Prod.mk.injEq] at h
          obtain ⟨h1, h2⟩ := h
          refine ⟨⟨?_, ?_⟩, h2.symm⟩
          · rw [← h1]
            dsimp only
            exact aSet_ne_nil _ _ _
          · intro p hp
            rw [← h1] at hp
            dsimp only at hp
            rcases mem_aSet hp with hv | hv
            · rw [hv]
              dsimp only
              exact hent
            · exact hle p hv

theorem runTrace_nonpos (evs : List (Db × Key)) :
    ∀ (s : SchedState),
      s.dags_to_watch ≠ [] →
      (∀ p ∈ s.dags_to_watch, (Prod.snd p).waiting_for ≤ 0) →
      ∀ (s' : SchedState) (b : Bool), runTrace s evs = .ok (s', b) →
        s'.dags_to_watch ≠ [] ∧ b = false := by
  induction evs with
  | nil =>
    intro s hne _ s' b h
    simp only [runTrace, Except.ok.injEq, Prod.mk.injEq] at h
    obtain ⟨h1, h2⟩ := h
    subst h1
    subst h2
    exact ⟨hne, rfl⟩
  | cons ev rest ih =>
    obtain ⟨db, k⟩ := ev
    intro s hne hle s' b h
    simp only [runTrace] at h
    cases hcs : change_state db s k with
    | error e =>
      rw [hcs] at h
      simp at h
    | ok p =>
      obtain ⟨s1, b1⟩ := p
      rw [hcs] at h
      dsimp only at h
      obtain ⟨⟨hne1, hle1⟩, hb1⟩ := nonpos_invariant_step db s k s1 b1 hcs hne hle
      cases htr : runTrace s1 rest with
      | error e =>
        rw [htr] at h
        simp at h
      | ok q =>
        obtain ⟨s2, b2⟩ := q
        rw [htr] at h
        simp only [Except.ok.injEq, Prod.mk.injEq] at h
        obtain ⟨h1, h2⟩ := h
        obtain ⟨hne2, hb2⟩ := ih s1 hne1 hle1 s2 b2 htr
        subst h1
        refine ⟨hne2, ?_⟩
        rw [← h2, hb1, hb2]
        rfl

/-! ### Claim C10 -/

/-- C10: initialising the tracker with target run count zero gives every
watched workflow a `waiting_for` of 0; a workflow is removed during a call
only when that call's decrement brought its counter to exactly zero; and
since a zero-start counter only ever moves to negative values, no sequence
of task-state-change events ever empties the watch set or issues the stop
instruction. -/
theorem c10_zero_target_never_stops (ids : List String) (hids : ids ≠ []) :
    (∀ d ∈ ids, aGet (ShortCircuit_init ids 0).dags_to_watch d =
      some { waiting_for := 0, runs := [] }) ∧
    (∀ (db : Db) (s : SchedState) (key : Key) (s' : SchedState) (b : Bool)
        (d : String) (e : WatchEntry),
      keysNodup s.dags_to_watch →
      change_state db s key = .ok (s', b) →
      aGet s.dags_to_watch d = some e →
      aGet s'.dags_to_watch d = none →
      e.waiting_for - 1 = 0) ∧
    (∀ (evs : List (Db × Key)) (s' : SchedState) (b : Bool),
      runTrace (ShortCircuit_init ids 0) evs = .ok (s', b) →
      s'.dags_to_watch ≠ [] ∧ b = false) := by
  refine ⟨?_, ?_, ?_⟩
  · intro d hd
    rw [ShortCircuit_init, aGet_reset, if_pos hd]
  · intro db s key s' b d e hn h he hgone
    exact change_state_removal db s key s' b d e hn h he hgone
  · intro evs s' b h
    refine runTrace_nonpos evs (ShortCircuit_init ids 0) ?_ ?_ s' b h
    · have hd : ids.dedup ≠ [] := by
        simpa [List.dedup_eq_nil] using hids
      simp only [ShortCircuit_init, ShortCircuit_reset]
      intro hq
      rw [List.map_eq_nil_iff] at hq
      exact hd hq
    · intro p hp
      simp only [ShortCircuit_init, ShortCircuit_reset] at hp
      obtain ⟨a, _, rfl⟩ := List.mem_map.mp hp
      exact Int.le_refl 0

/-- Witness for `c10_zero_target_never_stops` at `ids = ["a"]`: the entry
starts at 0; a concrete removal (from target 1) happens exactly on the
decrement to zero; and a successful event against the zero-target tracker
leaves the watch set non-empty (counter at -1) with no stop issued. -/
theorem c10_zero_target_never_stops_witness :
    aGet (ShortCircuit_init ["a"] 0).dags_to_watch "a" =
      some { waiting_for := 0, runs := [] } ∧
    ((⟨1, []⟩ : WatchEntry).waiting_for - 1 = 0) ∧
    (({ num_runs_per_dag := 0,
        dags_to_watch := [("a", { waiting_for := -1, runs := [] })] } :
          SchedState).dags_to_watch ≠ [] ∧
      false = false) :=
  ⟨(c10_zero_target_never_stops ["a"] (by simp)).1 "a" (by simp),
   (c10_zero_target_never_stops ["a"] (by simp)).2.1
     { rows := [⟨"a", 3, [⟨"t", .success⟩]⟩] }
     { num_runs_per_dag := 1, dags_to_watch := [("a", { waiting_for := 1, runs := [] })] }
     { dag_id := "a", task_id := "t", logical_date := 3, try_number := 1 }
     { num_runs_per_dag := 1, dags_to_watch := [] } true "a" ⟨1, []⟩
     (by decide) rfl rfl rfl,
   (c10_zero_target_never_stops ["a"] (by simp)).2.2
     [({ rows := [⟨"a", 3, [⟨"t", .success⟩]⟩] },
       { dag_id := "a", task_id := "t", logical_date := 3, try_number := 1 })]
     { num_runs_per_dag := 0, dags_to_watch := [("a", { waiting_for := -1, runs := [] })] }
     false rfl⟩

/-! ### Driver model: end-date validation (claim C8) -/

/-- A dag as seen by the driver's preamble: `next_dagrun_info` is rendered
by `runDates i`, the logical date of the i-th scheduled run (the chain
`next_info = dag.next_dagrun_info(None)` followed by
`next_dagrun_info(next_info.data_interval)` walks this sequence). -/
structure DagSpec where
  dag_id : String
  runDates : Nat → Nat
  end_date : Option Nat
  default_args_end_date : Option Nat

/-- `end_date = dag.end_date or dag.default_args.get("end_date")`
(Python `or`: `None` falls through to the default args). -/
def effectiveEndDate (dag : DagSpec) : Option Nat :=
  match dag.end_date with
  | some d => some d
  | none => dag.default_args_end_date

/-- The logical date reached after `next_dagrun_info(None)` plus
`range(num_runs - 1)` further `next_dagrun_info` steps (Python's
`range(-1)` is empty, matching `Nat` subtraction at `num_runs = 0`). -/
def nthRunLogicalDate (dag : DagSpec) (num_runs : Nat) : Nat :=
  dag.runDates (num_runs - 1)

/-- The `sys.exit` message of `main`: `f"DAG {dag_id} has incorrect
end_date ({end_date}) for number of runs! It should be
{next_info.logical_date}"`. -/
def endDateMessage (dag : DagSpec) (num_runs : Nat) : String :=
  "DAG " ++ dag.dag_id ++ " has incorrect end_date (" ++
    toString (effectiveEndDate dag) ++ ") for number of runs! It should be " ++
    toString (nthRunLogicalDate dag num_runs)

/-- The per-dag check `if end_date != next_info.logical_date:
sys.exit(message)` (`sys.exit` with a string prints it and exits with a
non-zero code, rendered as `.error`). -/
def checkDagEndDate (dag : DagSpec) (num_runs : Nat) : Except String Unit :=
  if effectiveEndDate dag = some (nthRunLogicalDate dag num_runs) then .ok ()
  else .error (endDateMessage dag num_runs)

/-- The preamble loop of `main` over the watched dags, in order;
`sys.exit` aborts the whole loop at the first mismatch. -/
def validateDags (dags : List DagSpec) (num_runs : Nat) : Except String Unit :=
  match dags with
  | [] => .ok ()
  | dag :: rest =>
    match checkDagEndDate dag num_runs with
    | .error m => .error m
    | .ok () => validateDags rest num_runs

/-- The driver: validate every dag's end date first; only then run the
`repeat` timed trials (rendered by the abstract per-trial result `trial`).
On a validation failure nothing is timed and no duration is recorded. -/
def mainModel (dags : List DagSpec) (num_runs reps : Nat) (trial : Nat → Nat) :
    Except String (List Nat) :=
  match validateDags dags num_runs with
  | .error m => .error m
  | .ok () => .ok ((List.range reps).map trial)

theorem validateDags_error (dags : List DagSpec) (num_runs : Nat) (d : DagSpec)
    (hmem : d ∈ dags)
    (hbad : effectiveEndDate d ≠ some (nthRunLogicalDate d num_runs)) :
    ∃ d', d' ∈ dags ∧ effectiveEndDate d' ≠ some (nthRunLogicalDate d' num_runs) ∧
      validateDags dags num_runs = .error (endDateMessage d' num_runs) := by
  induction dags with
  | nil => cases hmem
  | cons a rest ih =>
    by_cases ha : effectiveEndDate a = some (nthRunLogicalDate a num_runs)
    · have hd : d ∈ rest := by
        rcases List.mem_cons.mp hmem with h1 | h1
        · subst h1
          exact absurd ha hbad
        · exact h1
      obtain ⟨d', hm, hb, hv⟩ := ih hd
      exact ⟨d', List.mem_cons_of_mem _ hm, hb,
        by simp [validateDags, checkDagEndDate, ha, hv]⟩
    · exact ⟨a, List.mem_cons_self a rest, ha,
        by simp [validateDags, checkDagEndDate, ha]⟩

/-- C8: if any watched dag's effective end date differs from the logical
date of the Nth computed run (N = the configured run count), the harness
exits during the preamble with the descriptive message naming the (first
such) dag and the expected date; the whole run is an `.error`, so no trial
is executed and no duration is recorded. -/
theorem c8_end_date_mismatch_exits (dags : List DagSpec) (num_runs reps : Nat)
    (trial : Nat → Nat) (d : DagSpec)
    (hmem : d ∈ dags)
    (hbad : effectiveEndDate d ≠ some (nthRunLogicalDate d num_runs)) :
    ∃ d', d' ∈ dags ∧ effectiveEndDate d' ≠ some (nthRunLogicalDate d' num_runs) ∧
      mainModel dags num_runs reps trial = .error (endDateMessage d' num_runs) := by
  obtain ⟨d', hm, hb, hv⟩ := validateDags_error dags num_runs d hmem hbad
  exact ⟨d', hm, hb, by simp [mainModel, hv]⟩

/-- Witness for `c8_end_date_mismatch_exits`: a dag whose schedule's second
run (num-runs = 2) falls on date 10 while its configured end date is 99. -/
theorem c8_end_date_mismatch_exits_witness :
    ∃ d', d' ∈
        [({ dag_id := "w"
            runDates := (fun i => 10 * i)
            end_date := some 99
            default_args_end_date := none } : DagSpec)] ∧
      effectiveEndDate d' ≠ some (nthRunLogicalDate d' 2) ∧
      mainModel
          [{ dag_id := "w"
             runDates := (fun i => 10 * i)
             end_date := some 99
             default_args_end_date := none }] 2 3 (fun _ => 0) =
        .error (endDateMessage d' 2) :=
  c8_end_date_mismatch_exits _ 2 3 (fun _ => 0)
    { dag_id := "w"
      runDates := (fun i => 10 * i)
      end_date := some 99
      default_args_end_date := none }
    (List.mem_singleton.mpr rfl) (by simp [effectiveEndDate, nthRunLogicalDate])

/-! ### Driver model: per-trial wipe (claim C9) -/

/-- A row of the dag-model table (`DagModel`). -/
structure DagModelRow where
  dag_id : String
  is_paused : Bool
deriving DecidableEq, Repr

/-- A row of the dag-run table as the driver sees it (`DagRun`). -/
structure DagRunTableRow where
  dag_id : String
  logical_date : Nat
deriving DecidableEq, Repr

/-- A row of the task-instance table (`TaskInstance`). -/
structure TaskInstanceTableRow where
  dag_id : String
  task_id : String
deriving DecidableEq, Repr

/-- The persistence session used by the driver's setup code. -/
structure Session where
  dag_models : List DagModelRow
  dag_runs : List DagRunTableRow
  task_instances : List TaskInstanceTableRow
deriving DecidableEq, Repr

/-- `reset_dag(dag, session)`: `update({"is_paused": False})` on the dag's
model row, then bulk-delete the dag's run rows and task-instance rows
(docstring: "Delete all dag and task instances and then un_pause the
Dag."). -/
def reset_dag (dag_id : String) (session : Session) : Session :=
  { dag_models := session.dag_models.map fun m =>
      if m.dag_id = dag_id then { m with is_paused := false } else m,
    dag_runs := session.dag_runs.filter fun r => !(r.dag_id == dag_id),
    task_instances := session.task_instances.filter fun t => !(t.dag_id == dag_id) }

/-- `pause_all_dags(session)`: `update({"is_paused": True})` on every dag
model row. -/
def pause_all_dags (session : Session) : Session :=
  { session with
    dag_models := session.dag_models.map fun m => { m with is_paused := true } }

/-- The paused flag of a dag's model row. -/
def dagIsPaused (session : Session) (dag_id : String) : Option Bool :=
  (session.dag_models.find? fun m => m.dag_id == dag_id).map fun m => m.is_paused

theorem filter_erase_all {α : Type} (f : α → Bool) (l : List α) :
    (l.filter fun a => !(f a)).filter f = [] := by
  induction l with
  | nil => rfl
  | cons a l ih =>
    cases h : f a <;> simp [List.filter_cons, h, ih]

/-- C9 counterexample: a paused workflow `w` with one run and one task
instance; after `reset_dag` its paused flag is `false`, not `true` — the
wipe un-pauses the workflow, refuting the claim that the paused flag is
set after the wipe. -/
theorem c9_reset_dag_counterexample :
    dagIsPaused (reset_dag "w"
      { dag_models := [⟨"w", true⟩],
        dag_runs := [⟨"w", 1⟩],
        task_instances := [⟨"w", "t"⟩] }) "w" = some false ∧
    (some false ≠ some true) :=
  ⟨rfl, by simp⟩

/-- C9 (amended): the Driver's per-trial wipe deletes the workflow's
persisted run and task-instance records and restores it to an "unpaused,
no runs" baseline — the workflow's paused flag is cleared (set to `false`)
by the wipe, not set. -/
theorem c9_reset_dag_unpauses (dag_id : String) (session : Session) :
    (reset_dag dag_id session).dag_runs.filter (fun r => r.dag_id == dag_id) = [] ∧
    (reset_dag dag_id session).task_instances.filter (fun t => t.dag_id == dag_id) = [] ∧
    ∀ m ∈ (reset_dag dag_id session).dag_models,
      m.dag_id = dag_id → m.is_paused = false := by
  refine ⟨filter_erase_all _ _, filter_erase_all _ _, ?_⟩
  intro m hm hd
  simp only [reset_dag] at hm
  obtain ⟨m0, _, hmeq⟩ := List.mem_map.mp hm
  by_cases h : m0.dag_id = dag_id
  · rw [if_pos h] at hmeq
    rw [← hmeq]
  · rw [if_neg h] at hmeq
    rw [← hmeq] at hd
    exact absurd hd h

/-- Witness for `c9_reset_dag_unpauses` on a concrete session holding two
paused workflows with runs and task instances. -/
theorem c9_reset_dag_unpauses_witness :
    (reset_dag "w"
      { dag_models := [⟨"w", true⟩, ⟨"v", true⟩],
        dag_runs := [⟨"w", 1⟩, ⟨"v", 2⟩],
        task_instances := [⟨"w", "t"⟩] }).dag_runs.filter (fun r => r.dag_id == "w") = [] ∧
    (reset_dag "w"
      { dag_models := [⟨"w", true⟩, ⟨"v", true⟩],
        dag_runs := [⟨"w", 1⟩, ⟨"v", 2⟩],
        task_instances := [⟨"w", "t"⟩] }).task_instances.filter
          (fun t => t.dag_id == "w") = [] ∧
    ∀ m ∈ (reset_dag "w"
      { dag_models := [⟨"w", true⟩, ⟨"v", true⟩],
        dag_runs := [⟨"w", 1⟩, ⟨"v", 2⟩],
        task_instances := [⟨"w", "t"⟩] }).dag_models,
      m.dag_id = "w" → m.is_paused = false :=
  c9_reset_dag_unpauses "w"
    { dag_models := [⟨"w", true⟩, ⟨"v", true⟩],
      dag_runs := [⟨"w", 1⟩, ⟨"v", 2⟩],
      task_instances := [⟨"w", "t"⟩] }
